import Mathlib

/-!
# Verification of the JVL franchise dashboard ingestion and store layer

Shallow embedding of the ingestion pipeline (`src/utils.py`) and the
rating / shortlist store operations (`src/db.py`) of the dashboard,
together with proofs and refutations of the specified properties.

Modelling conventions:
* Python strings are `String` / `List Char`; cell values are the inductive
  `Value` (null / numeric / text), where `Value.null` stands for both
  `None` and float NaN (everything `pd.isna` accepts).
* Python floats are modelled as exact rationals `ℚ`.
* The regular expressions in `src/utils.py` are written inside *raw*
  strings with doubled backslashes (for instance `r"(19|20)\\d{2}"`), so
  the regex engine sees an escaped backslash: such a pattern only matches
  text that contains a literal backslash character.  The matchers below
  embed exactly that (buggy) behaviour; each one is a direct transcription
  of the concrete pattern, including the literal-backslash atoms.
* `float(s)` applied to a matched group that contains a backslash raises
  `ValueError` in Python, and `_parse_amount` has no `try`/`except`, so
  the error escapes the extractor.  `_parse_amount_exc`,
  `extractRowsExc` and `extract_startup_records_exc` model this error
  channel faithfully: `Except.error` exactly where `float` raises.  The
  total `_parse_amount` collapses that raise to `none`; it is used only
  where the collapse is sound — concrete evaluations at backslash-free
  inputs (C1, C2), and the amended C8, whose universally quantified
  conclusion is only strengthened by having to cover the extra `ok`
  cases the collapse admits.  C7, whose truth depends on the error
  channel, is settled against the faithful `extract_startup_records_exc`.
* Scanning loops of `re.findall` / `re.search` / `str.replace` are encoded
  with an explicit fuel argument initialised to the text length; every
  step consumes at least one character, so the fuel never runs out.
-/

/-- ASCII whitespace recognised by Python `str.strip()`. -/
def isPyWs (c : Char) : Bool :=
  c == ' ' || c == '\t' || c == '\n' || c == '\r' ||
  c == '\x0b' || c == '\x0c'

/-- The character class `[a-zA-Z0-9]` of the normalizer's regex. -/
def isAsciiAlnum (c : Char) : Bool :=
  (97 ≤ c.toNat && c.toNat ≤ 122) ||
  (65 ≤ c.toNat && c.toNat ≤ 90) ||
  (48 ≤ c.toNat && c.toNat ≤ 57)

/-- ASCII lower-casing, as applied by `str.lower()` to the header text
(headers are ASCII; the Unicode cases of `str.lower` are not needed). -/
def lowerChar (c : Char) : Char :=
  if 65 ≤ c.toNat ∧ c.toNat ≤ 90 then Char.ofNat (c.toNat + 32) else c

/-- `str.strip()`: drop leading and trailing whitespace. -/
def wsStrip (l : List Char) : List Char :=
  (((l.dropWhile isPyWs).reverse.dropWhile isPyWs)).reverse

/-- `str.strip("_")`: drop leading and trailing underscores. -/
def stripUnderscore (l : List Char) : List Char :=
  (((l.dropWhile (· == '_')).reverse.dropWhile (· == '_'))).reverse

/-- `re.sub(r"[^a-zA-Z0-9]+", "_", ·)`: replace every maximal run of
non-alphanumeric characters by a single underscore.  The boolean records
whether the scan is currently inside such a run. -/
def replaceRunsAux : Bool → List Char → List Char
  | _, [] => []
  | inRun, c :: cs =>
      if isAsciiAlnum c then c :: replaceRunsAux false cs
      else if inRun then replaceRunsAux true cs
      else '_' :: replaceRunsAux true cs

/-- `re.sub(r"_+", "_", ·)`: collapse runs of underscores. -/
def collapseUnderscoreAux : Bool → List Char → List Char
  | _, [] => []
  | inRun, c :: cs =>
      if c == '_' then
        if inRun then collapseUnderscoreAux true cs
        else '_' :: collapseUnderscoreAux true cs
      else c :: collapseUnderscoreAux false cs

/-- `normalize_column_name` from `src/utils.py`:
`name.strip().lower()`, then the two `re.sub`s, then `strip("_")`. -/
def normalize_column_name (name : String) : String :=
  String.mk (stripUnderscore (collapseUnderscoreAux false
    (replaceRunsAux false ((wsStrip name.data).map lowerChar))))

/-- The normalization rule exactly as the spec words it: lower-case,
replace every maximal run of non-alphanumeric characters with a single
underscore, strip leading/trailing underscores. -/
def specNormalizeColumnName (name : String) : String :=
  String.mk (stripUnderscore (replaceRunsAux false (name.data.map lowerChar)))

/-- `normalize_columns` builds `normalized_columns` (a dict keyed by the
original header) and `seen` (a dict of occurrence counts per normalized
token); dicts are modelled as association lists where an insert prepends
(the first hit of `List.lookup` is the newest binding, matching dict
overwrite semantics). -/
def buildRenameMap : List String → List (String × Nat) → List (String × String) →
    List (String × String)
  | [], _, acc => acc
  | col :: rest, seen, acc =>
      let normalized := normalize_column_name col
      let count := (List.lookup normalized seen).getD 0 + 1
      let final := if count > 1 then normalized ++ "_" ++ Nat.repr count
                   else normalized
      buildRenameMap rest ((normalized, count) :: seen) ((col, final) :: acc)

/-- `normalize_columns` from `src/utils.py`, restricted to the header row:
`df.rename(columns=normalized_columns)` maps every label through the dict
(labels missing from the dict are kept, as `rename` does). -/
def normalize_columns (cols : List String) : List String :=
  let m := buildRenameMap cols [] []
  cols.map (fun c => (List.lookup c m).getD c)

/-- The collision rule as the spec words it: each header is renamed to its
normalized token, with `_k` appended when it is the `k`-th column (in
order of appearance) whose token is that value, `k ≥ 2`. -/
def renameExpectedGo : List String → List String → List String
  | _, [] => []
  | prev, c :: rest =>
      let t := normalize_column_name c
      let k := (prev.filter (fun p => normalize_column_name p == t)).length + 1
      (if k = 1 then t else t ++ "_" ++ Nat.repr k) ::
        renameExpectedGo (prev ++ [c]) rest

def renameExpected (cols : List String) : List String := renameExpectedGo [] cols

/-- The `seen` dict holds, for every token, how many processed headers
normalized to it. -/
def seenInv (seen : List (String × Nat)) (prev : List String) : Prop :=
  ∀ t, (List.lookup t seen).getD 0 =
    (prev.filter (fun p => normalize_column_name p == t)).length

/-- A spreadsheet cell: `null` stands for anything `pd.isna` accepts
(`None`, NaN), `num` for int/float cells, `str` for text cells. -/
inductive Value where
  | null : Value
  | num (q : ℚ) : Value
  | str (s : String) : Value
deriving DecidableEq

/-- A dataframe: column labels plus rows aligned with the labels. -/
structure Df where
  columns : List String
  rows : List (List Value)
deriving DecidableEq

/-- The alias list of the mandatory canonical field, first entry of
`COLUMN_MAPPING`. -/
def startupNameAliases : List String :=
  ["startup", "startup_name", "company", "company_name", "name"]

/-- The remaining entries of `COLUMN_MAPPING`, in dict insertion order. -/
def COLUMN_MAPPING_TAIL : List (String × List String) :=
  [("sector", ["sector", "industry", "category", "vertical"]),
   ("city", ["city", "hq_city", "location_city"]),
   ("address", ["address", "hq_address", "location_address"]),
   ("amount", ["amount", "amount_raised", "funding_amount", "raise_amount", "funding"]),
   ("year", ["year", "funding_year", "raised_year"]),
   ("website", ["website", "web", "url", "company_website"]),
   ("leadership", ["leadership", "founder", "founders", "leadership_team",
    "leadership_founders"]),
   ("source_link", ["sourcelink", "source_link", "source", "article",
    "citation_link", "reference_link"]),
   ("contact", ["contact", "contact_details", "email", "phone"])]

/-- `COLUMN_MAPPING` from `src/utils.py`, in dict insertion order
(`startup_name` is the first key). -/
def COLUMN_MAPPING : List (String × List String) :=
  ("startup_name", startupNameAliases) :: COLUMN_MAPPING_TAIL

/-- `df[name]`: the values of the (first) column labelled `name`. -/
def dfColValues (df : Df) (name : String) : List Value :=
  match df.columns.findIdx? (fun c => c == name) with
  | some i => df.rows.map (fun r => r.getD i Value.null)
  | none => []

/-- `df[name] = vals`: append a new column. -/
def dfAddCol (df : Df) (name : String) (vals : List Value) : Df :=
  ⟨df.columns ++ [name], List.zipWith (fun r v => r ++ [v]) df.rows vals⟩

/-- One iteration of the canonical-resolution loop of
`normalize_startup_df`: skip if the canonical name is already a column,
else bind it to the first alias that is a column. -/
def resolveStep (d : Df) (entry : String × List String) : Df :=
  if d.columns.contains entry.1 then d
  else
    match entry.2.find? (fun v => d.columns.contains v) with
    | some v => dfAddCol d entry.1 (dfColValues d v)
    | none => d

/-- `normalize_startup_df` from `src/utils.py`.  The inner
`normalize_columns` raises on an empty dataframe (`df.empty` is true when
either axis has length zero); then each canonical field is resolved; then
the mandatory `startup_name` column is checked. -/
def normalize_startup_df (df : Df) : Except String Df :=
  if df.rows.isEmpty || df.columns.isEmpty then
    Except.error "Excel file is empty."
  else if (COLUMN_MAPPING.foldl resolveStep
      ⟨normalize_columns df.columns, df.rows⟩).columns.contains "startup_name" then
    Except.ok (COLUMN_MAPPING.foldl resolveStep
      ⟨normalize_columns df.columns, df.rows⟩)
  else Except.error "Missing required column: Startup"

/-- The claim's resolution condition for the mandatory field: some column
equals `startup_name` after normalization, or some alias of
`startup_name` is among the normalized columns. -/
def startupNameResolvable (df : Df) : Prop :=
  "startup_name" ∈ normalize_columns df.columns ∨
    ∃ v ∈ startupNameAliases, v ∈ normalize_columns df.columns

/-- The character class `[0-9]`. -/
def isDigitChar (c : Char) : Bool := 48 ≤ c.toNat && c.toNat ≤ 57

/-- Value of a digit string (most significant first). -/
def digitsToNat (ds : List Char) : Nat :=
  ds.foldl (fun n c => 10 * n + (c.toNat - 48)) 0

/-- Python `int(s)` on text: optional surrounding whitespace, optional
sign, a non-empty digit run; anything else raises `ValueError`, i.e.
`none`.  (Underscore separators and non-ASCII digits are not modelled.) -/
def pythonIntOfString (s : String) : Option Int :=
  match wsStrip s.data with
  | '-' :: ds =>
      if ds.isEmpty || !ds.all isDigitChar then none
      else some (-(digitsToNat ds : Int))
  | '+' :: ds =>
      if ds.isEmpty || !ds.all isDigitChar then none
      else some (digitsToNat ds : Int)
  | ds =>
      if ds.isEmpty || !ds.all isDigitChar then none
      else some (digitsToNat ds : Int)

/-- Python `float(s)` on the regex groups fed to it: `some` of the value
on a digit run, optionally `.` and another digit run; `none` on any other
shape — in particular the backslash-containing groups the buggy patterns
can produce, on which `float` raises `ValueError`.  The raise itself is
modelled by `_parse_amount_exc` below, which errors exactly where this
function is `none` on a taken match branch. -/
def parseNumber (s : String) : Option ℚ :=
  let ip := s.data.takeWhile isDigitChar
  let rest := s.data.dropWhile isDigitChar
  if ip.isEmpty then none
  else
    match rest with
    | [] => some (digitsToNat ip : ℚ)
    | '.' :: fp =>
        if fp.isEmpty || !fp.all isDigitChar then none
        else some ((digitsToNat ip : ℚ) + (digitsToNat fp : ℚ) / (10 : ℚ) ^ fp.length)
    | _ => none

/-- Python `int(float)` truncates toward zero. -/
def pyTruncToInt (q : ℚ) : Int := q.num.tdiv (q.den : Int)

/-- One attempt of the year pattern `(19|20)\\d{2}` (raw string, so the
regex atoms are: `19` or `20`, a literal backslash, then `d` twice) at
the head of the text; returns the whole match (`group(0)`) and the rest. -/
def matchYearAt : List Char → Option (List Char × List Char)
  | '1' :: '9' :: '\\' :: 'd' :: 'd' :: rest =>
      some (['1', '9', '\\', 'd', 'd'], rest)
  | '2' :: '0' :: '\\' :: 'd' :: 'd' :: rest =>
      some (['2', '0', '\\', 'd', 'd'], rest)
  | _ => none

/-- `re.search` scan for the year pattern: leftmost match. -/
def searchYear : Nat → List Char → Option (List Char)
  | 0, _ => none
  | _, [] => none
  | fuel + 1, c :: cs =>
      match matchYearAt (c :: cs) with
      | some (m, _) => some m
      | none => searchYear fuel cs

/-- `_to_int` from `src/utils.py`.  On text the year-pattern match
(`group(0)`, which always contains a literal backslash) or the whole text
is fed to `int(·)`; a `ValueError` yields `None` via the `except`. -/
def _to_int (v : Value) : Option Int :=
  match v with
  | Value.null => none
  | Value.num q => some (pyTruncToInt q)
  | Value.str s =>
      match searchYear s.data.length s.data with
      | some m => pythonIntOfString (String.mk m)
      | none => pythonIntOfString s

/-- Python `str(·)` on a numeric cell.  Only its non-emptiness matters to
any theorem below. -/
def pyStrOfNum (q : ℚ) : String := toString q

/-- `_to_str` from `src/utils.py`: `str(value).strip() or None`. -/
def _to_str (v : Value) : Option String :=
  match v with
  | Value.null => none
  | Value.num q =>
      let t := String.mk (wsStrip (pyStrOfNum q).data)
      if t.isEmpty then none else some t
  | Value.str s =>
      let t := String.mk (wsStrip s.data)
      if t.isEmpty then none else some t

/-- `str.replace("us$", "")`, scanning left to right (dead code in
practice: every `$` was already removed). -/
def removeUsDollar : List Char → List Char
  | [] => []
  | 'u' :: 's' :: '$' :: rest => removeUsDollar rest
  | c :: rest => c :: removeUsDollar rest

/-- The buggy `re.sub(r"\\s+", " ", ·)`: the pattern is a literal
backslash followed by one or more `s` characters; each such occurrence is
replaced by a single space. -/
def subBackslashS : Nat → List Char → List Char
  | 0, l => l
  | _, [] => []
  | fuel + 1, '\\' :: rest =>
      match rest with
      | 's' :: r2 => ' ' :: subBackslashS fuel (r2.dropWhile (· == 's'))
      | _ => '\\' :: subBackslashS fuel rest
  | fuel + 1, c :: rest => c :: subBackslashS fuel rest

/-- The cleaning pipeline of `_parse_amount`:
`str(value).lower().replace(",", " ").replace("$", "").replace("us$", "")
.replace("₹", " ")`, then the (buggy) whitespace collapse, then
`strip()`. -/
def cleanAmount (s : String) : List Char :=
  let t1 := (s.data.map lowerChar).map (fun c => if c == ',' then ' ' else c)
  let t2 := removeUsDollar (t1.filter (fun c => !(c == '$')))
  let t3 := t2.map (fun c => if c == '₹' then ' ' else c)
  wsStrip (subBackslashS t3.length t3)

/-- The scale-word alternation of the first amount pattern, in pattern
order. -/
def scaleAlternatives : List String :=
  ["crore", "cr", "lakh", "lac", "million", "mn", "mil", "billion", "bn",
   "thousand", "k"]

/-- `scale_map` from `_parse_amount` (total function; the default `0` is
unreachable because group 2 is always one of the listed words). -/
def scale_map (w : String) : ℚ :=
  if w == "crore" then 10000000 else if w == "cr" then 10000000
  else if w == "lakh" then 100000 else if w == "lac" then 100000
  else if w == "million" then 1000000 else if w == "mn" then 1000000
  else if w == "mil" then 1000000
  else if w == "billion" then 1000000000 else if w == "bn" then 1000000000
  else if w == "thousand" then 1000 else if w == "k" then 1000 else 0

/-- `suffix_map` from `_parse_amount` (same remark). -/
def suffix_map (c : Char) : ℚ :=
  if c == 'k' then 1000 else if c == 'm' then 1000000
  else if c == 'b' then 1000000000 else 0

/-- The tail `(crore|cr|…|k)\\b` of the first amount pattern: the first
alternative (in pattern order) that is a prefix here and is followed by a
literal backslash and a literal `b`. -/
def matchScaleTail (cs : List Char) : Option (String × List Char) :=
  scaleAlternatives.findSome? (fun w =>
    if w.data.isPrefixOf cs then
      match cs.drop w.data.length with
      | '\\' :: 'b' :: rest => some (w, rest)
      | _ => none
    else none)

/-- One attempt of the (buggy) first amount pattern
`([0-9]+(?:\\.[0-9]+)?)\\s*(crore|cr|…|k)\\b` at the head of the text.
Raw-string atoms: digits, optional (literal backslash, any char, digits),
literal backslash, a run of `s`, a scale word, literal backslash, `b`.
The optional group is tried greedily, falling back to the bare digit run
(regex backtracking). -/
def matchScalePatternAt (cs : List Char) : Option (String × String × List Char) :=
  let ds := cs.takeWhile isDigitChar
  let r0 := cs.dropWhile isDigitChar
  if ds.isEmpty then none
  else
    let attempt : List Char → List Char → Option (String × String × List Char) :=
      fun g1 r =>
        match r with
        | '\\' :: r2 =>
            match matchScaleTail (r2.dropWhile (· == 's')) with
            | some (w, rest) => some (String.mk g1, w, rest)
            | none => none
        | _ => none
    let withOpt : Option (String × String × List Char) :=
      match r0 with
      | '\\' :: c :: r1 =>
          if c == '\n' then none
          else
            let ds2 := r1.takeWhile isDigitChar
            if ds2.isEmpty then none
            else attempt (ds ++ '\\' :: c :: ds2) (r1.dropWhile isDigitChar)
      | _ => none
    match withOpt with
    | some res => some res
    | none => attempt ds r0

/-- `re.findall` of the first amount pattern: leftmost matches, scanning
resumes after each match. -/
def findallScaleAux : Nat → List Char → List (String × String)
  | 0, _ => []
  | _, [] => []
  | fuel + 1, c :: cs =>
      match matchScalePatternAt (c :: cs) with
      | some (g1, g2, rest) => (g1, g2) :: findallScaleAux fuel rest
      | none => findallScaleAux fuel cs

def findallScale (cs : List Char) : List (String × String) :=
  findallScaleAux cs.length cs

/-- One attempt of the (buggy) tight-suffix pattern
`([0-9]+(?:\\.[0-9]+)?)(k|m|b)\\b`: digits, the optional
backslash group, one of `k`/`m`/`b`, then a literal backslash and `b`. -/
def matchSuffixPatternAt (cs : List Char) : Option (String × Char × List Char) :=
  let ds := cs.takeWhile isDigitChar
  let r0 := cs.dropWhile isDigitChar
  if ds.isEmpty then none
  else
    let attempt : List Char → List Char → Option (String × Char × List Char) :=
      fun g1 r =>
        match r with
        | k :: '\\' :: 'b' :: rest =>
            if k == 'k' || k == 'm' || k == 'b' then some (String.mk g1, k, rest)
            else none
        | _ => none
    let withOpt : Option (String × Char × List Char) :=
      match r0 with
      | '\\' :: c :: r1 =>
          if c == '\n' then none
          else
            let ds2 := r1.takeWhile isDigitChar
            if ds2.isEmpty then none
            else attempt (ds ++ '\\' :: c :: ds2) (r1.dropWhile isDigitChar)
      | _ => none
    match withOpt with
    | some res => some res
    | none => attempt ds r0

/-- `re.findall` of the tight-suffix pattern. -/
def findallSuffixAux : Nat → List Char → List (String × Char)
  | 0, _ => []
  | _, [] => []
  | fuel + 1, c :: cs =>
      match matchSuffixPatternAt (c :: cs) with
      | some (g1, g2, rest) => (g1, g2) :: findallSuffixAux fuel rest
      | none => findallSuffixAux fuel cs

def findallSuffix (cs : List Char) : List (String × Char) :=
  findallSuffixAux cs.length cs

/-- `re.search(r"([0-9]+(?:\\.[0-9]+)?)", ·)`: group 1 of the leftmost
match — a maximal digit run, greedily extended by the optional
(backslash, any char, digits) group. -/
def searchNumberAux : Nat → List Char → Option String
  | 0, _ => none
  | _, [] => none
  | fuel + 1, c :: cs =>
      if isDigitChar c then
        let ds := (c :: cs).takeWhile isDigitChar
        match (c :: cs).dropWhile isDigitChar with
        | '\\' :: d :: r1 =>
            if d == '\n' then some (String.mk ds)
            else
              let ds2 := r1.takeWhile isDigitChar
              if ds2.isEmpty then some (String.mk ds)
              else some (String.mk (ds ++ '\\' :: d :: ds2))
        | _ => some (String.mk ds)
      else searchNumberAux fuel cs

def searchNumber (cs : List Char) : Option String :=
  searchNumberAux cs.length cs

/-- `_parse_amount` from `src/utils.py`, total collapse: numeric cells
pass through as floats (sign included); text is cleaned, then the
single-match rules are applied to the (buggy) scale pattern, then the
(buggy) tight-suffix pattern, then the first plain number is used.
Where the source raises `ValueError` out of `float(·)` (a
backslash-containing group), this version returns `none`; the faithful
exception-carrying version is `_parse_amount_exc` below. -/
def _parse_amount : Value → Option ℚ
  | Value.null => none
  | Value.num q => some q
  | Value.str s =>
      match findallScale (cleanAmount s) with
      | [(numStr, scale)] => (parseNumber numStr).map (· * scale_map scale)
      | _ :: _ :: _ => none
      | [] =>
          match findallSuffix (cleanAmount s) with
          | [(numStr, suf)] => (parseNumber numStr).map (· * suffix_map suf)
          | _ :: _ :: _ => none
          | [] =>
              match searchNumber (cleanAmount s) with
              | some g => parseNumber g
              | none => none

/-- A canonical startup record; `raw` is the fallback payload (the
original row as a key→value mapping, whose `json.dumps` serialization is
modelled by the mapping itself). -/
structure StartupRecord where
  startup_name : String
  sector : Option String
  city : Option String
  year : Option Int
  amount : Option ℚ
  website : Option String
  leadership : Option String
  source_link : Option String
  address : Option String
  contact : Option String
  raw : List (String × Value)
deriving DecidableEq

/-- `row.get(name)`: the value under the (first) column with that label,
`None`/NaN (here `Value.null`) when absent. -/
def rowGet (cols : List String) (row : List Value) (name : String) : Value :=
  match cols.findIdx? (fun c => c == name) with
  | some i => row.getD i Value.null
  | none => Value.null

/-- The record built from one row that has a usable name. -/
def mkRecord (cols : List String) (row : List Value) (name : String) :
    StartupRecord where
  startup_name := name
  sector := _to_str (rowGet cols row "sector")
  city := _to_str (rowGet cols row "city")
  year := _to_int (rowGet cols row "year")
  amount := _parse_amount (rowGet cols row "amount")
  website := _to_str (rowGet cols row "website")
  leadership := _to_str (rowGet cols row "leadership")
  source_link := _to_str (rowGet cols row "source_link")
  address := _to_str (rowGet cols row "address")
  contact := _to_str (rowGet cols row "contact")
  raw := cols.zip row

/-- One loop iteration of `extract_startup_records`: `None` when the row
is skipped (blank name → `continue`). -/
def rowToRecord (cols : List String) (row : List Value) : Option StartupRecord :=
  match _to_str (rowGet cols row "startup_name") with
  | none => none
  | some name => some (mkRecord cols row name)

/-- `extract_startup_records` from `src/utils.py`, built on the total
(collapsed) `_parse_amount`; the exception-faithful extractor is
`extract_startup_records_exc` below. -/
def extract_startup_records (df : Df) : Except String (List StartupRecord) :=
  if (df.rows.filterMap (rowToRecord df.columns)).isEmpty then
    Except.error "No valid startup records found."
  else Except.ok (df.rows.filterMap (rowToRecord df.columns))

/-- A row whose coerced `startup_name` is non-null and non-empty. -/
def usableRow (cols : List String) (row : List Value) : Bool :=
  (_to_str (rowGet cols row "startup_name")).isSome

/-- `_parse_amount` with its error channel: `Except.error` exactly where
the source's `float(number)` raises an uncaught `ValueError` — on a
taken match branch whose group does not parse (it contains a literal
backslash).  All other paths agree with the total `_parse_amount`.
(Python's message carries the offending text; a fixed message suffices
here.) -/
def _parse_amount_exc : Value → Except String (Option ℚ)
  | Value.null => Except.ok none
  | Value.num q => Except.ok (some q)
  | Value.str s =>
      match findallScale (cleanAmount s) with
      | [(numStr, scale)] =>
          match parseNumber numStr with
          | some q => Except.ok (some (q * scale_map scale))
          | none => Except.error "could not convert string to float"
      | _ :: _ :: _ => Except.ok none
      | [] =>
          match findallSuffix (cleanAmount s) with
          | [(numStr, suf)] =>
              match parseNumber numStr with
              | some q => Except.ok (some (q * suffix_map suf))
              | none => Except.error "could not convert string to float"
          | _ :: _ :: _ => Except.ok none
          | [] =>
              match searchNumber (cleanAmount s) with
              | some g =>
                  match parseNumber g with
                  | some q => Except.ok (some q)
                  | none => Except.error "could not convert string to float"
              | none => Except.ok none

/-- The row loop of `extract_startup_records` with the error channel:
rows without a usable name are skipped before any amount parse; a
`ValueError` escaping `_parse_amount` aborts the whole loop (the
already-built records are discarded with the exception). -/
def extractRowsExc (cols : List String) :
    List (List Value) → Except String (List StartupRecord)
  | [] => Except.ok []
  | row :: rest =>
      match _to_str (rowGet cols row "startup_name") with
      | none => extractRowsExc cols rest
      | some name =>
          match _parse_amount_exc (rowGet cols row "amount") with
          | Except.error e => Except.error e
          | Except.ok amt =>
              match extractRowsExc cols rest with
              | Except.error e => Except.error e
              | Except.ok recs =>
                  Except.ok
                    ({ startup_name := name
                       sector := _to_str (rowGet cols row "sector")
                       city := _to_str (rowGet cols row "city")
                       year := _to_int (rowGet cols row "year")
                       amount := amt
                       website := _to_str (rowGet cols row "website")
                       leadership := _to_str (rowGet cols row "leadership")
                       source_link := _to_str (rowGet cols row "source_link")
                       address := _to_str (rowGet cols row "address")
                       contact := _to_str (rowGet cols row "contact")
                       raw := cols.zip row } :: recs)

/-- `extract_startup_records` with the error channel: the uncaught
`ValueError` from an amount cell propagates; otherwise the usual
zero-records validation check applies. -/
def extract_startup_records_exc (df : Df) : Except String (List StartupRecord) :=
  match extractRowsExc df.columns df.rows with
  | Except.error e => Except.error e
  | Except.ok records =>
      if records.isEmpty then Except.error "No valid startup records found."
      else Except.ok records

/-- Membership of a `(startup, user)` pair in the shortlists table
(modelled as a list of `((startup_id, user_id), created_at)` rows): the
`SELECT 1 … WHERE startup_id = ? AND user_id = ?` existence check. -/
def shortMember (st : List ((Nat × Nat) × String)) (s u : Nat) : Bool :=
  st.any (fun r => r.1 == (s, u))

/-- `toggle_shortlist` from `src/db.py`: delete the pair's rows if one
exists and return `False`, else insert `(s, u, now)` and return `True`.
`now` stands for `datetime.utcnow().isoformat()`. -/
def toggle_shortlist (st : List ((Nat × Nat) × String)) (s u : Nat)
    (now : String) : Bool × List ((Nat × Nat) × String) :=
  if shortMember st s u then
    (false, st.filter (fun r => !(r.1 == (s, u))))
  else
    (true, st ++ [((s, u), now)])

/-- A row of the ratings table (the surrogate `id` is omitted; the
`UNIQUE(startup_id, user_id)` constraint is the `uniqueKeys` invariant
below). -/
structure RatingRow where
  startup_id : Nat
  user_id : Nat
  rating : Int
  comment : String
  updated_at : String
deriving DecidableEq

/-- The `WHERE startup_id = ? AND user_id = ?` / `ON CONFLICT` key test. -/
def ratingKeyMatches (s u : Nat) (r : RatingRow) : Bool :=
  r.startup_id == s && r.user_id == u

/-- `upsert_rating` from `src/db.py`: `INSERT … ON CONFLICT(startup_id,
user_id) DO UPDATE SET rating, comment, updated_at` — the conflicting row
is updated in place, otherwise the new row is appended. -/
def upsert_rating (st : List RatingRow) (s u : Nat) (rating : Int)
    (comment now : String) : List RatingRow :=
  if st.any (ratingKeyMatches s u) then
    st.map (fun r =>
      if ratingKeyMatches s u r then ⟨s, u, rating, comment, now⟩ else r)
  else st ++ [⟨s, u, rating, comment, now⟩]

/-- The arguments of one `upsert_rating` call (`now` is the timestamp the
call writes). -/
structure RatingCall where
  startup_id : Nat
  user_id : Nat
  rating : Int
  comment : String
  now : String
deriving DecidableEq

def applyRatingCall (st : List RatingRow) (c : RatingCall) : List RatingRow :=
  upsert_rating st c.startup_id c.user_id c.rating c.comment c.now

def runRatingCalls (st : List RatingRow) (calls : List RatingCall) :
    List RatingRow :=
  calls.foldl applyRatingCall st

def rowKey (r : RatingRow) : Nat × Nat := (r.startup_id, r.user_id)

/-- The `SELECT * FROM ratings WHERE startup_id = ? AND user_id = ?`
point lookup. -/
def findRow (st : List RatingRow) (s u : Nat) : Option RatingRow :=
  st.find? (ratingKeyMatches s u)

/-- The latest call of a sequence for a given pair. -/
def lastCallFor (s u : Nat) (calls : List RatingCall) : Option RatingCall :=
  (calls.filter (fun c => c.startup_id == s && c.user_id == u)).getLast?

/-- The `UNIQUE(startup_id, user_id)` table constraint. -/
def uniqueKeys (st : List RatingRow) : Prop :=
  st.Pairwise (fun a b => rowKey a ≠ rowKey b)


theorem replaceRunsAux_cons_alnum {c : Char} (b : Bool) (cs : List Char)
    (h : isAsciiAlnum c = true) :
    replaceRunsAux b (c :: cs) = c :: replaceRunsAux false cs := by
  simp [replaceRunsAux, h]

theorem replaceRunsAux_cons_bad_true {c : Char} (cs : List Char)
    (h : isAsciiAlnum c = false) :
    replaceRunsAux true (c :: cs) = replaceRunsAux true cs := by
  simp [replaceRunsAux, h]

theorem replaceRunsAux_cons_bad_false {c : Char} (cs : List Char)
    (h : isAsciiAlnum c = false) :
    replaceRunsAux false (c :: cs) = '_' :: replaceRunsAux true cs := by
  simp [replaceRunsAux, h]

theorem collapseUnderscoreAux_cons_other {c : Char} (b : Bool) (cs : List Char)
    (h : (c == '_') = false) :
    collapseUnderscoreAux b (c :: cs) = c :: collapseUnderscoreAux false cs := by
  simp [collapseUnderscoreAux, h]

theorem collapseUnderscoreAux_cons_u_false (cs : List Char) :
    collapseUnderscoreAux false ('_' :: cs) = '_' :: collapseUnderscoreAux true cs := by
  simp [collapseUnderscoreAux]

theorem alnum_ne_underscore {c : Char} (h : isAsciiAlnum c = true) :
    (c == '_') = false := by
  by_cases hc : c = '_'
  · subst hc; simp [isAsciiAlnum] at h
  · simp [hc]

theorem stripUnderscore_cons (x : List Char) :
    stripUnderscore ('_' :: x) = stripUnderscore x := by
  simp [stripUnderscore, List.dropWhile_cons]

theorem stripUnderscore_concat (x : List Char) :
    stripUnderscore (x ++ ['_']) = stripUnderscore x := by
  unfold stripUnderscore
  rw [List.dropWhile_append]
  by_cases h : (x.dropWhile (· == '_')).isEmpty
  · simp [h, List.isEmpty_iff.mp h, List.dropWhile_cons]
  · simp only [h, if_false, List.reverse_append, List.reverse_cons,
      List.reverse_nil, List.nil_append, List.singleton_append,
      List.dropWhile_cons]
    simp

theorem replaceRunsAux_true_strip (t : List Char) :
    stripUnderscore (replaceRunsAux true t) =
      stripUnderscore (replaceRunsAux false t) := by
  induction t with
  | nil => rfl
  | cons c u ih =>
    cases h : isAsciiAlnum c with
    | true => rw [replaceRunsAux_cons_alnum true u h, replaceRunsAux_cons_alnum false u h]
    | false =>
      rw [replaceRunsAux_cons_bad_true u h, replaceRunsAux_cons_bad_false u h,
        stripUnderscore_cons]

theorem collapse_true_replace_true (cs : List Char) :
    collapseUnderscoreAux true (replaceRunsAux true cs) =
      collapseUnderscoreAux false (replaceRunsAux true cs) := by
  induction cs with
  | nil => rfl
  | cons d ds ih =>
    cases h : isAsciiAlnum d with
    | true =>
      rw [replaceRunsAux_cons_alnum true ds h,
        collapseUnderscoreAux_cons_other true _ (alnum_ne_underscore h),
        collapseUnderscoreAux_cons_other false _ (alnum_ne_underscore h)]
    | false =>
      rw [replaceRunsAux_cons_bad_true ds h]
      exact ih

theorem collapse_replaceRuns (l : List Char) :
    ∀ b, collapseUnderscoreAux false (replaceRunsAux b l) = replaceRunsAux b l := by
  induction l with
  | nil => intro b; rfl
  | cons c cs ih =>
    intro b
    cases h : isAsciiAlnum c with
    | true =>
      rw [replaceRunsAux_cons_alnum b cs h,
        collapseUnderscoreAux_cons_other false _ (alnum_ne_underscore h), ih false]
    | false =>
      cases b with
      | true => rw [replaceRunsAux_cons_bad_true cs h]; exact ih true
      | false =>
        rw [replaceRunsAux_cons_bad_false cs h, collapseUnderscoreAux_cons_u_false,
          collapse_true_replace_true, ih true]

theorem replaceRunsAux_all_bad (suf : List Char)
    (h : ∀ c ∈ suf, isAsciiAlnum c = false) :
    replaceRunsAux true suf = [] ∧
      (replaceRunsAux false suf = [] ∨ replaceRunsAux false suf = ['_']) := by
  induction suf with
  | nil => exact ⟨rfl, Or.inl rfl⟩
  | cons c cs ih =>
    have hc : isAsciiAlnum c = false := h c (List.mem_cons_self c cs)
    have ih' := ih (fun d hd => h d (List.mem_cons_of_mem c hd))
    refine ⟨?_, ?_⟩
    · rw [replaceRunsAux_cons_bad_true cs hc]; exact ih'.1
    · right
      rw [replaceRunsAux_cons_bad_false cs hc, ih'.1]

theorem replaceRunsAux_append_bad (core : List Char) :
    ∀ (suf : List Char) (b : Bool), (∀ c ∈ suf, isAsciiAlnum c = false) →
      replaceRunsAux b (core ++ suf) = replaceRunsAux b core ∨
        replaceRunsAux b (core ++ suf) = replaceRunsAux b core ++ ['_'] := by
  induction core with
  | nil =>
    intro suf b h
    cases b with
    | true =>
      left
      simpa using (replaceRunsAux_all_bad suf h).1
    | false =>
      rcases (replaceRunsAux_all_bad suf h).2 with h0 | h1
      · left; simpa using h0
      · right; simpa using h1
  | cons c cs ih =>
    intro suf b h
    cases hc : isAsciiAlnum c with
    | true =>
      rw [List.cons_append, replaceRunsAux_cons_alnum b _ hc,
        replaceRunsAux_cons_alnum b cs hc]
      rcases ih suf false h with h0 | h1
      · left; rw [h0]
      · right; rw [h1, List.cons_append]
    | false =>
      cases b with
      | true =>
        rw [List.cons_append, replaceRunsAux_cons_bad_true _ hc,
          replaceRunsAux_cons_bad_true cs hc]
        exact ih suf true h
      | false =>
        rw [List.cons_append, replaceRunsAux_cons_bad_false _ hc,
          replaceRunsAux_cons_bad_false cs hc]
        rcases ih suf true h with h0 | h1
        · left; rw [h0]
        · right; rw [h1, List.cons_append]

theorem strip_replace_pre (pre : List Char) :
    ∀ (m : List Char), (∀ c ∈ pre, isAsciiAlnum c = false) →
      stripUnderscore (replaceRunsAux false (pre ++ m)) =
        stripUnderscore (replaceRunsAux false m) := by
  induction pre with
  | nil => intro m _; rfl
  | cons c cs ih =>
    intro m h
    have hc : isAsciiAlnum c = false := h c (List.mem_cons_self c cs)
    rw [List.cons_append, replaceRunsAux_cons_bad_false _ hc, stripUnderscore_cons,
      replaceRunsAux_true_strip]
    exact ih m (fun d hd => h d (List.mem_cons_of_mem c hd))

theorem strip_replace_suf (m suf : List Char)
    (h : ∀ c ∈ suf, isAsciiAlnum c = false) :
    stripUnderscore (replaceRunsAux false (m ++ suf)) =
      stripUnderscore (replaceRunsAux false m) := by
  rcases replaceRunsAux_append_bad m suf false h with h0 | h1
  · rw [h0]
  · rw [h1, stripUnderscore_concat]

theorem mem_takeWhile_pred {p : Char → Bool} {l : List Char} {a : Char}
    (h : a ∈ l.takeWhile p) : p a = true := by
  induction l with
  | nil => simp [List.takeWhile] at h
  | cons c cs ih =>
    rw [List.takeWhile_cons] at h
    by_cases hc : p c
    · simp only [hc, if_true, List.mem_cons] at h
      rcases h with rfl | h
      · exact hc
      · exact ih h
    · simp [hc] at h

theorem wsStrip_decomp (l : List Char) :
    ∃ pre suf, l = pre ++ wsStrip l ++ suf ∧
      (∀ c ∈ pre, isPyWs c = true) ∧ (∀ c ∈ suf, isPyWs c = true) := by
  refine ⟨l.takeWhile isPyWs,
    ((l.dropWhile isPyWs).reverse.takeWhile isPyWs).reverse, ?_, ?_, ?_⟩
  · conv_lhs => rw [← List.takeWhile_append_dropWhile (p := isPyWs) (l := l)]
    rw [List.append_assoc]
    congr 1
    conv_lhs => rw [← List.reverse_reverse (l.dropWhile isPyWs),
      ← List.takeWhile_append_dropWhile (p := isPyWs)
        (l := (l.dropWhile isPyWs).reverse)]
    rw [List.reverse_append]
    rfl
  · intro c hc; exact mem_takeWhile_pred hc
  · intro c hc
    rw [List.mem_reverse] at hc
    exact mem_takeWhile_pred hc

theorem lowerChar_ws_not_alnum {c : Char} (h : isPyWs c = true) :
    isAsciiAlnum (lowerChar c) = false := by
  simp only [isPyWs, Bool.or_eq_true, beq_iff_eq] at h
  rcases h with ((((rfl | rfl) | rfl) | rfl) | rfl) | rfl <;> decide

theorem normalize_column_name_eq_spec (s : String) :
    normalize_column_name s = specNormalizeColumnName s := by
  unfold normalize_column_name specNormalizeColumnName
  rw [collapse_replaceRuns]
  obtain ⟨pre, suf, hdec, hpre, hsuf⟩ := wsStrip_decomp s.data
  have hmap : s.data.map lowerChar =
      (pre.map lowerChar) ++ ((wsStrip s.data).map lowerChar ++ suf.map lowerChar) := by
    conv_lhs => rw [hdec]
    simp [List.map_append]
  rw [hmap]
  rw [strip_replace_pre _ _ (by
    intro c hc
    rw [List.mem_map] at hc
    obtain ⟨d, hd, rfl⟩ := hc
    exact lowerChar_ws_not_alnum (hpre d hd))]
  rw [strip_replace_suf _ _ (by
    intro c hc
    rw [List.mem_map] at hc
    obtain ⟨d, hd, rfl⟩ := hc
    exact lowerChar_ws_not_alnum (hsuf d hd))]

/-- C4: `normalize_column_name` lower-cases the header, replaces every
maximal run of non-alphanumeric characters with a single underscore and
strips leading/trailing underscores (the source's extra `str.strip()` and
`_+`-collapse steps are no-ops), and the three example headers all
normalize to `startup_name`. -/
theorem normalize_column_name_follows_spec :
    (∀ s, normalize_column_name s = specNormalizeColumnName s) ∧
    normalize_column_name "Startup Name" = "startup_name" ∧
    normalize_column_name "startup_name" = "startup_name" ∧
    normalize_column_name "STARTUP-NAME" = "startup_name" := by
  refine ⟨normalize_column_name_eq_spec, by decide, by decide, by decide⟩

/-- Keys not in the processed column list are untouched by the rename-map
construction. -/
theorem buildRenameMap_lookup_not_mem (cols : List String) :
    ∀ (seen : List (String × Nat)) (acc : List (String × String)) (x : String),
      x ∉ cols →
      List.lookup x (buildRenameMap cols seen acc) = List.lookup x acc := by
  induction cols with
  | nil => intro seen acc x _; rfl
  | cons c rest ih =>
    intro seen acc x hx
    have hxc : x ≠ c := fun h => hx (h ▸ List.mem_cons_self c rest)
    have hxr : x ∉ rest := fun h => hx (List.mem_cons_of_mem c h)
    unfold buildRenameMap
    rw [ih _ _ _ hxr]
    have hbeq : (x == c) = false := beq_eq_false_iff_ne.mpr hxc
    simp [List.lookup, hbeq]

theorem buildRenameMap_cons (c : String) (rest : List String)
    (seen : List (String × Nat)) (acc : List (String × String)) :
    buildRenameMap (c :: rest) seen acc =
      buildRenameMap rest
        ((normalize_column_name c,
          (List.lookup (normalize_column_name c) seen).getD 0 + 1) :: seen)
        ((c,
          if (List.lookup (normalize_column_name c) seen).getD 0 + 1 > 1
          then normalize_column_name c ++ "_" ++
            Nat.repr ((List.lookup (normalize_column_name c) seen).getD 0 + 1)
          else normalize_column_name c) :: acc) := rfl

theorem renameExpectedGo_cons (prev : List String) (c : String)
    (rest : List String) :
    renameExpectedGo prev (c :: rest) =
      (if (prev.filter
            (fun p => normalize_column_name p == normalize_column_name c)).length + 1 = 1
       then normalize_column_name c
       else normalize_column_name c ++ "_" ++
         Nat.repr ((prev.filter
            (fun p => normalize_column_name p == normalize_column_name c)).length + 1)) ::
      renameExpectedGo (prev ++ [c]) rest := rfl

theorem buildRenameMap_go (cols : List String) :
    ∀ (prev : List String) (seen : List (String × Nat))
      (acc : List (String × String)),
      seenInv seen prev → (prev ++ cols).Pairwise (· ≠ ·) →
      cols.map (fun c => (List.lookup c (buildRenameMap cols seen acc)).getD c) =
        renameExpectedGo prev cols := by
  induction cols with
  | nil => intro prev seen acc _ _; rfl
  | cons c rest ih =>
    intro prev seen acc hseen hpw
    have hpw' : (c :: rest).Pairwise (· ≠ ·) := (List.pairwise_append.mp hpw).2.1
    have hcr : c ∉ rest := by
      intro hmem
      exact (List.pairwise_cons.mp hpw').1 c hmem rfl
    rw [buildRenameMap_cons, List.map_cons, renameExpectedGo_cons]
    have hcnt : (List.lookup (normalize_column_name c) seen).getD 0 =
        (prev.filter
          (fun p => normalize_column_name p == normalize_column_name c)).length :=
      hseen (normalize_column_name c)
    congr 1
    · rw [buildRenameMap_lookup_not_mem rest _ _ c hcr]
      simp only [List.lookup, beq_self_eq_true, Option.getD_some]
      rw [hcnt]
      rcases Nat.eq_zero_or_pos
        (prev.filter
          (fun p => normalize_column_name p == normalize_column_name c)).length with
        h0 | h0
      · rw [h0]; simp
      · rw [if_pos (by omega), if_neg (by omega)]
    · have hseen' : seenInv
          ((normalize_column_name c,
            (List.lookup (normalize_column_name c) seen).getD 0 + 1) :: seen)
          (prev ++ [c]) := by
        intro u
        by_cases hu : u = normalize_column_name c
        · subst hu
          simp only [List.lookup, beq_self_eq_true, Option.getD_some,
            List.filter_append]
          rw [hcnt]
          simp
        · have hb : (u == normalize_column_name c) = false :=
            beq_eq_false_iff_ne.mpr hu
          simp only [List.lookup, hb, List.filter_append]
          rw [hseen u]
          have hb2 : (normalize_column_name c == u) = false :=
            beq_eq_false_iff_ne.mpr (fun h => hu h.symm)
          simp [hb2]
      have hpw2 : ((prev ++ [c]) ++ rest).Pairwise (· ≠ ·) := by
        rw [List.append_assoc, List.singleton_append]
        exact hpw
      exact ih (prev ++ [c]) _ _ hseen' hpw2

/-- C5 (counterexample): three pairwise-distinct headers, two of which
normalize to the same token, whose renamed columns are NOT pairwise
distinct: `["a", "a-", "a 2"]` normalizes to `["a", "a_2", "a_2"]`. -/
theorem normalize_columns_not_injective :
    (["a", "a-", "a 2"] : List String).Pairwise (· ≠ ·) ∧
    normalize_column_name "a" = normalize_column_name "a-" ∧
    normalize_columns ["a", "a-", "a 2"] = ["a", "a_2", "a_2"] ∧
    ¬ (normalize_columns ["a", "a-", "a 2"]).Pairwise (· ≠ ·) := by
  refine ⟨by decide, by decide, by decide, by decide⟩

/-- C5 (amended): with pairwise-distinct original headers,
`normalize_columns` renames the `k`-th column carrying a given normalized
token (in order of appearance, `k ≥ 2`) to `token_k`; the first keeps the
bare token.  Resulting names are not guaranteed pairwise distinct. -/
theorem normalize_columns_suffix_rule (cols : List String)
    (h : cols.Pairwise (· ≠ ·)) :
    normalize_columns cols = renameExpected cols := by
  unfold normalize_columns renameExpected
  exact buildRenameMap_go cols [] [] []
    (fun t => by simp [List.lookup]) (by simpa using h)

/-- Witness for the amended C5 at a concrete header list with a
duplicate-token collision. -/
theorem normalize_columns_suffix_rule_witness :
    (["Startup Name", "startup_name", "x"] : List String).Pairwise (· ≠ ·) ∧
    normalize_columns ["Startup Name", "startup_name", "x"] =
      renameExpected ["Startup Name", "startup_name", "x"] :=
  ⟨by decide, normalize_columns_suffix_rule _ (by decide)⟩

theorem resolveStep_mem {x : String} (d : Df) (e : String × List String)
    (h : x ∈ d.columns) : x ∈ (resolveStep d e).columns := by
  unfold resolveStep
  split
  · exact h
  · split
    · exact List.mem_append_left _ h
    · exact h

theorem foldl_resolveStep_mem {x : String} (l : List (String × List String)) :
    ∀ d : Df, x ∈ d.columns → x ∈ (l.foldl resolveStep d).columns := by
  induction l with
  | nil => intro d h; exact h
  | cons e rest ih =>
    intro d h
    rw [List.foldl_cons]
    exact ih _ (resolveStep_mem d e h)

theorem resolveStep_mem_inv {x : String} (d : Df) (e : String × List String)
    (h : x ∈ (resolveStep d e).columns) : x ∈ d.columns ∨ x = e.1 := by
  unfold resolveStep at h
  split at h
  · exact Or.inl h
  · split at h
    · rcases List.mem_append.mp h with h1 | h1
      · exact Or.inl h1
      · exact Or.inr (List.mem_singleton.mp h1)
    · exact Or.inl h

theorem foldl_resolveStep_not_mem {x : String} (l : List (String × List String)) :
    ∀ d : Df, x ∉ d.columns → (∀ e ∈ l, e.1 ≠ x) →
      x ∉ (l.foldl resolveStep d).columns := by
  induction l with
  | nil => intro d h _; exact h
  | cons e rest ih =>
    intro d h hl
    rw [List.foldl_cons]
    refine ih _ ?_ (fun e' he' => hl e' (List.mem_cons_of_mem e he'))
    intro hmem
    rcases resolveStep_mem_inv d e hmem with h1 | h1
    · exact h h1
    · exact hl e (List.mem_cons_self e rest) h1.symm

theorem resolveStep_head_iff (d : Df) (aliases : List String) :
    "startup_name" ∈ (resolveStep d ("startup_name", aliases)).columns ↔
      "startup_name" ∈ d.columns ∨ ∃ v ∈ aliases, v ∈ d.columns := by
  unfold resolveStep
  by_cases hc : d.columns.contains "startup_name"
  · rw [if_pos hc]
    have hm := List.elem_iff.mp hc
    exact ⟨fun _ => Or.inl hm, fun _ => hm⟩
  · rw [if_neg hc]
    have hnm : "startup_name" ∉ d.columns := fun hm => hc (List.elem_iff.mpr hm)
    rcases hf : aliases.find? (fun v => d.columns.contains v) with _ | v
    · simp only []
      constructor
      · intro hm; exact absurd hm hnm
      · intro h
        rcases h with h | ⟨v, hv, hvm⟩
        · exact absurd h hnm
        · exfalso
          have := List.find?_eq_none.mp hf v hv
          exact this (List.elem_iff.mpr hvm)
    · simp only []
      constructor
      · intro _
        refine Or.inr ⟨v, List.mem_of_find?_eq_some hf, ?_⟩
        have hpv : d.columns.contains v = true := List.find?_some hf
        exact List.elem_iff.mp hpv
      · intro _
        exact List.mem_append_right _ (List.mem_singleton.mpr rfl)

/-- C6: `normalize_startup_df` fails exactly on an empty spreadsheet (zero
rows or zero columns) or when no column resolves to `startup_name`
(directly after normalization or through the alias table); on success the
result has a `startup_name` column. -/
theorem normalize_startup_df_validation (df : Df) :
    ((∃ e, normalize_startup_df df = Except.error e) ↔
      (df.rows = [] ∨ df.columns = [] ∨ ¬ startupNameResolvable df)) ∧
    (∀ d2, normalize_startup_df df = Except.ok d2 →
      "startup_name" ∈ d2.columns) := by
  by_cases hemp : (df.rows.isEmpty || df.columns.isEmpty) = true
  · have heq : normalize_startup_df df = Except.error "Excel file is empty." := by
      unfold normalize_startup_df
      rw [if_pos hemp]
    refine ⟨⟨fun _ => ?_, fun _ => ⟨_, heq⟩⟩, fun d2 h => ?_⟩
    · rcases Bool.or_eq_true _ _ |>.mp hemp with h | h
      · exact Or.inl (List.isEmpty_iff.mp h)
      · exact Or.inr (Or.inl (List.isEmpty_iff.mp h))
    · rw [heq] at h
      exact absurd h (by simp)
  · have hne : df.rows ≠ [] ∧ df.columns ≠ [] := by
      rw [Bool.or_eq_true] at hemp
      push_neg at hemp
      constructor
      · intro h; exact absurd (List.isEmpty_iff.mpr h) hemp.1
      · intro h; exact absurd (List.isEmpty_iff.mpr h) hemp.2
    have hkey : ("startup_name" ∈
        (COLUMN_MAPPING.foldl resolveStep
          ⟨normalize_columns df.columns, df.rows⟩).columns) ↔
        startupNameResolvable df := by
      have hsplit : COLUMN_MAPPING =
          ("startup_name", startupNameAliases) :: COLUMN_MAPPING_TAIL := rfl
      rw [hsplit, List.foldl_cons]
      constructor
      · intro hm
        by_contra hnr
        have hnot1 : "startup_name" ∉
            (resolveStep ⟨normalize_columns df.columns, df.rows⟩
              ("startup_name", startupNameAliases)).columns := by
          intro hmem
          exact hnr ((resolveStep_head_iff _ _).mp hmem)
        exact foldl_resolveStep_not_mem COLUMN_MAPPING_TAIL _ hnot1 (by decide) hm
      · intro hr
        exact foldl_resolveStep_mem COLUMN_MAPPING_TAIL _
          ((resolveStep_head_iff _ _).mpr hr)
    by_cases hc : ((COLUMN_MAPPING.foldl resolveStep
        ⟨normalize_columns df.columns, df.rows⟩).columns.contains "startup_name") = true
    · have heq : normalize_startup_df df = Except.ok
          (COLUMN_MAPPING.foldl resolveStep
            ⟨normalize_columns df.columns, df.rows⟩) := by
        unfold normalize_startup_df
        rw [if_neg hemp, if_pos hc]
      refine ⟨⟨fun ⟨e, he⟩ => ?_, fun h => ?_⟩, fun d2 h => ?_⟩
      · rw [heq] at he
        exact absurd he (by simp)
      · exfalso
        rcases h with h | h | h
        · exact hne.1 h
        · exact hne.2 h
        · exact h (hkey.mp (List.elem_iff.mp hc))
      · rw [heq] at h
        have : d2 = COLUMN_MAPPING.foldl resolveStep
            ⟨normalize_columns df.columns, df.rows⟩ := by
          injection h.symm
        rw [this]
        exact List.elem_iff.mp hc
    · have heq : normalize_startup_df df =
          Except.error "Missing required column: Startup" := by
        unfold normalize_startup_df
        rw [if_neg hemp, if_neg hc]
      refine ⟨⟨fun _ => ?_, fun _ => ⟨_, heq⟩⟩, fun d2 h => ?_⟩
      · refine Or.inr (Or.inr ?_)
        intro hr
        exact hc (List.elem_iff.mpr (hkey.mpr hr))
      · rw [heq] at h
        exact absurd h (by simp)

/-- Witness for C6: a one-column, one-row sheet whose header normalizes
to `startup_name` is accepted and carries the mandatory column. -/
theorem normalize_startup_df_validation_witness :
    "startup_name" ∈
      (Df.mk ["startup_name"] [[Value.str "Acme"]]).columns :=
  (normalize_startup_df_validation (Df.mk ["Startup Name"] [[Value.str "Acme"]])).2
    (Df.mk ["startup_name"] [[Value.str "Acme"]]) (by rfl)

/-- C1: the spec requires `_parse_amount "2 lakh 3 million"` to be null
(two scale matches, ambiguity must not be guessed), but the scale pattern
is written with doubled backslashes inside a raw string, so it matches
nothing here; the function falls through to the first plain number and
returns `2.0`. -/
theorem parse_amount_ambiguity_code_bug :
    findallScale (cleanAmount "2 lakh 3 million") = [] ∧
    findallSuffix (cleanAmount "2 lakh 3 million") = [] ∧
    _parse_amount (Value.str "2 lakh 3 million") = some 2 :=
  ⟨by decide, by decide, by decide⟩

/-- C2: the spec's scale/suffix conversions never happen — the patterns
(raw strings with doubled backslashes) cannot match backslash-free text —
so every example falls back to the first plain numeric token:
`"₹2.5 crore" ↦ 2.0` (not `25000000.0`), `"$1.2M" ↦ 1.0` (not
`1200000.0`), `"3.4k" ↦ 3.0` (not `3400.0`); only `"500" ↦ 500.0`
agrees with the spec. -/
theorem parse_amount_scale_code_bug :
    _parse_amount (Value.str "₹2.5 crore") = some 2 ∧
    _parse_amount (Value.str "$1.2M") = some 1 ∧
    _parse_amount (Value.str "3.4k") = some 3 ∧
    _parse_amount (Value.str "500") = some 500 :=
  ⟨by decide, by decide, by decide, by decide⟩

/-- C3: the year pattern `r"(19|20)\\d{2}"` only matches text containing
a literal backslash, so `_to_int "Funded in 2019"` finds no year, the
direct `int(...)` parse fails, and the result is null — the spec requires
`2019`.  (`"FY21" ↦ null` does agree with the spec.) -/
theorem to_int_year_code_bug :
    searchYear ("Funded in 2019".data.length) ("Funded in 2019".data) = none ∧
    _to_int (Value.str "Funded in 2019") = none ∧
    _to_int (Value.str "FY21") = none :=
  ⟨by decide, by decide, by decide⟩

/-- C7: the claim says extraction fails with a validation error exactly
when zero usable records remain.  In the code, `_parse_amount` can raise
an uncaught `ValueError` — `float(·)` applied to a matched group of the
buggy fallback pattern that contains a literal backslash — aborting
extraction although a usable named row exists.  On the sheet
`[["Acme", "12\\34"]]` the fallback pattern's group is `12\\34`
(digits, literal backslash, any char, digits), `float` fails, and the
extractor errors out despite its one usable row; with the intended
regexes every matched group is a valid float literal and the claimed
iff holds, so the doubled-escape slip is the cause. -/
theorem extract_startup_records_raises_code_bug :
    usableRow ["startup_name", "amount"] [Value.str "Acme", Value.str "12\\34"] =
      true ∧
    ((Df.mk ["startup_name", "amount"]
        [[Value.str "Acme", Value.str "12\\34"]]).rows.filter
      (usableRow ["startup_name", "amount"])).length = 1 ∧
    searchNumber (cleanAmount "12\\34") = some "12\\34" ∧
    parseNumber "12\\34" = none ∧
    extract_startup_records_exc
        (Df.mk ["startup_name", "amount"]
          [[Value.str "Acme", Value.str "12\\34"]]) =
      Except.error "could not convert string to float" :=
  ⟨by decide, by decide, by decide, by decide, by rfl⟩

/-- C8 (counterexample): a numeric amount cell passes through
`float(value)` unchanged, so a negative cell survives into the extracted
record — the amount is neither null nor non-negative. -/
theorem extract_amount_negative_counterexample :
    extract_startup_records
        (Df.mk ["startup_name", "amount"] [[Value.str "Acme", Value.num (-5)]]) =
      Except.ok [mkRecord ["startup_name", "amount"]
        [Value.str "Acme", Value.num (-5)] "Acme"] ∧
    (mkRecord ["startup_name", "amount"]
        [Value.str "Acme", Value.num (-5)] "Acme").amount = some (-5) ∧
    ¬ (0 : ℚ) ≤ -5 :=
  ⟨rfl, by decide, by decide⟩

theorem parseNumber_nonneg (s : String) (q : ℚ) (h : parseNumber s = some q) :
    0 ≤ q := by
  unfold parseNumber at h
  by_cases hip : (s.data.takeWhile isDigitChar).isEmpty
  · rw [if_pos hip] at h
    exact absurd h (by simp)
  · rw [if_neg hip] at h
    split at h
    · have hq := Option.some.inj h
      rw [← hq]
      positivity
    · split at h
      · exact absurd h (by simp)
      · have hq := Option.some.inj h
        rw [← hq]
        positivity
    · exact absurd h (by simp)

set_option maxHeartbeats 2000000 in
theorem scale_map_nonneg (w : String) : 0 ≤ scale_map w := by
  unfold scale_map
  split_ifs <;> norm_num

theorem suffix_map_nonneg (c : Char) : 0 ≤ suffix_map c := by
  unfold suffix_map
  split_ifs <;> norm_num

theorem parse_amount_nonneg_or_passthrough (v : Value) (q : ℚ)
    (h : _parse_amount v = some q) : 0 ≤ q ∨ v = Value.num q := by
  cases v with
  | null => exact Option.noConfusion h
  | num q0 =>
    right
    simp only [_parse_amount] at h
    exact congrArg Value.num (Option.some.inj h)
  | str s =>
    left
    simp only [_parse_amount] at h
    split at h
    · rcases Option.map_eq_some'.mp h with ⟨q0, hq0, hmul⟩
      rw [← hmul]
      exact mul_nonneg (parseNumber_nonneg _ _ hq0) (scale_map_nonneg _)
    · exact Option.noConfusion h
    · split at h
      · rcases Option.map_eq_some'.mp h with ⟨q0, hq0, hmul⟩
        rw [← hmul]
        exact mul_nonneg (parseNumber_nonneg _ _ hq0) (suffix_map_nonneg _)
      · exact Option.noConfusion h
      · split at h
        · exact parseNumber_nonneg _ _ h
        · exact Option.noConfusion h

/-- C8 (amended): every extracted record's amount is null or a float;
it is non-negative unless it was passed through verbatim from a numeric
amount cell of the row (which may be negative). -/
theorem extract_amount_sign (df : Df) (recs : List StartupRecord)
    (hr : extract_startup_records df = Except.ok recs) :
    ∀ r ∈ recs, r.amount = none ∨
      ∃ q, r.amount = some q ∧
        (0 ≤ q ∨ ∃ row ∈ df.rows, rowGet df.columns row "amount" = Value.num q) := by
  intro r hmem
  unfold extract_startup_records at hr
  by_cases hemp : (df.rows.filterMap (rowToRecord df.columns)).isEmpty
  · rw [if_pos hemp] at hr
    exact absurd hr (by simp)
  · rw [if_neg hemp] at hr
    have hrecs : recs = df.rows.filterMap (rowToRecord df.columns) := by
      injection hr.symm
    rw [hrecs] at hmem
    rcases List.mem_filterMap.mp hmem with ⟨row, hrow, hconv⟩
    unfold rowToRecord at hconv
    split at hconv
    · exact absurd hconv (by simp)
    · have hrrec := Option.some.inj hconv
      have hamt : r.amount = _parse_amount (rowGet df.columns row "amount") := by
        rw [← hrrec]
        rfl
      cases hq : r.amount with
      | none => exact Or.inl rfl
      | some q =>
        right
        refine ⟨q, rfl, ?_⟩
        rw [hq] at hamt
        rcases parse_amount_nonneg_or_passthrough _ _ hamt.symm with h0 | h0
        · exact Or.inl h0
        · exact Or.inr ⟨row, hrow, h0⟩

/-- Witness for the amended C8 at the negative-amount sheet. -/
theorem extract_amount_sign_witness :
    (mkRecord ["startup_name", "amount"]
        [Value.str "Acme", Value.num (-5)] "Acme").amount = none ∨
    ∃ q, (mkRecord ["startup_name", "amount"]
        [Value.str "Acme", Value.num (-5)] "Acme").amount = some q ∧
      (0 ≤ q ∨ ∃ row ∈ (Df.mk ["startup_name", "amount"]
          [[Value.str "Acme", Value.num (-5)]]).rows,
        rowGet ["startup_name", "amount"] row "amount" = Value.num q) :=
  extract_amount_sign _ _
    (rfl : extract_startup_records
      (Df.mk ["startup_name", "amount"] [[Value.str "Acme", Value.num (-5)]]) =
      Except.ok [mkRecord ["startup_name", "amount"]
        [Value.str "Acme", Value.num (-5)] "Acme"])
    _ (List.mem_singleton_self _)

theorem shortMember_filter (st : List ((Nat × Nat) × String)) (s u : Nat) :
    shortMember (st.filter (fun r => !(r.1 == (s, u)))) s u = false := by
  unfold shortMember
  rw [List.any_eq_false]
  intro r hr
  rcases List.mem_filter.mp hr with ⟨_, hkeep⟩
  simp only [Bool.not_eq_true'] at hkeep
  simp [hkeep]

theorem shortMember_append_self (st : List ((Nat × Nat) × String)) (s u : Nat)
    (n : String) : shortMember (st ++ [((s, u), n)]) s u = true := by
  simp [shortMember, List.any_append]

theorem toggle_shortlist_pos (st : List ((Nat × Nat) × String)) (s u : Nat)
    (now : String) (h : shortMember st s u = true) :
    toggle_shortlist st s u now =
      (false, st.filter (fun r => !(r.1 == (s, u)))) := by
  unfold toggle_shortlist
  rw [if_pos h]

theorem toggle_shortlist_neg (st : List ((Nat × Nat) × String)) (s u : Nat)
    (now : String) (h : shortMember st s u = false) :
    toggle_shortlist st s u now = (true, st ++ [((s, u), now)]) := by
  unfold toggle_shortlist
  rw [if_neg (by rw [h]; exact Bool.false_ne_true)]

/-- C9: two consecutive `toggle_shortlist` calls for the same
`(startup, user)` pair restore the pair's original membership, and each
call's boolean return equals the pair's membership right after that call
(`True` on insert, `False` on delete). -/
theorem toggle_shortlist_pair (st : List ((Nat × Nat) × String)) (s u : Nat)
    (n1 n2 : String) :
    shortMember (toggle_shortlist (toggle_shortlist st s u n1).2 s u n2).2 s u =
      shortMember st s u ∧
    (toggle_shortlist st s u n1).1 =
      shortMember (toggle_shortlist st s u n1).2 s u ∧
    (toggle_shortlist (toggle_shortlist st s u n1).2 s u n2).1 =
      shortMember (toggle_shortlist (toggle_shortlist st s u n1).2 s u n2).2 s u := by
  by_cases h : shortMember st s u = true
  · rw [toggle_shortlist_pos st s u n1 h]
    rw [toggle_shortlist_neg _ s u n2 (shortMember_filter st s u)]
    refine ⟨?_, ?_, ?_⟩
    · rw [h]
      exact shortMember_append_self _ s u n2
    · exact (shortMember_filter st s u).symm
    · exact (shortMember_append_self _ s u n2).symm
  · have hf : shortMember st s u = false := Bool.eq_false_iff.mpr h
    rw [toggle_shortlist_neg st s u n1 hf]
    rw [toggle_shortlist_pos _ s u n2 (shortMember_append_self st s u n1)]
    refine ⟨?_, ?_, ?_⟩
    · rw [hf, shortMember_filter]
    · exact (shortMember_append_self st s u n1).symm
    · exact (shortMember_filter _ s u).symm

theorem ratingKeyMatches_iff (s u : Nat) (r : RatingRow) :
    ratingKeyMatches s u r = true ↔ r.startup_id = s ∧ r.user_id = u := by
  unfold ratingKeyMatches
  simp

theorem rowKey_update (s u : Nat) (rat : Int) (com now : String) (r : RatingRow) :
    rowKey (if ratingKeyMatches s u r then
      (⟨s, u, rat, com, now⟩ : RatingRow) else r) = rowKey r := by
  by_cases hm : ratingKeyMatches s u r
  · rw [if_pos hm]
    rcases (ratingKeyMatches_iff s u r).mp hm with ⟨h1, h2⟩
    unfold rowKey
    rw [h1, h2]
  · rw [if_neg hm]

theorem uniqueKeys_upsert (st : List RatingRow) (s u : Nat) (rat : Int)
    (com now : String) (h : uniqueKeys st) :
    uniqueKeys (upsert_rating st s u rat com now) := by
  unfold upsert_rating
  by_cases hx : st.any (ratingKeyMatches s u)
  · rw [if_pos hx]
    unfold uniqueKeys
    rw [List.pairwise_map]
    refine h.imp ?_
    intro a b hab
    rw [rowKey_update, rowKey_update]
    exact hab
  · rw [if_neg hx]
    unfold uniqueKeys
    rw [List.pairwise_append]
    refine ⟨h, List.pairwise_singleton _ _, ?_⟩
    intro a ha b hb
    rw [List.mem_singleton] at hb
    subst hb
    intro hk
    refine hx (List.any_eq_true.mpr ⟨a, ha, ?_⟩)
    have := Prod.mk.injEq .. ▸ hk
    rcases Prod.mk.injEq _ _ _ _ ▸ hk with ⟨h1, h2⟩
    exact (ratingKeyMatches_iff s u a).mpr ⟨h1, h2⟩

theorem find_map_update (st : List RatingRow) (s u : Nat) (rat : Int)
    (com now : String) (hx : st.any (ratingKeyMatches s u) = true) :
    (st.map (fun r => if ratingKeyMatches s u r then
        (⟨s, u, rat, com, now⟩ : RatingRow) else r)).find?
      (ratingKeyMatches s u) = some ⟨s, u, rat, com, now⟩ := by
  induction st with
  | nil => simp at hx
  | cons r rs ih =>
    rw [List.map_cons]
    by_cases hm : ratingKeyMatches s u r
    · rw [if_pos hm]
      have hnew : ratingKeyMatches s u (⟨s, u, rat, com, now⟩ : RatingRow) = true := by
        unfold ratingKeyMatches
        simp
      rw [List.find?_cons_of_pos _ hnew]
    · rw [if_neg hm]
      have hx' : rs.any (ratingKeyMatches s u) = true := by
        rcases List.any_eq_true.mp hx with ⟨a, ha, hpa⟩
        rcases List.mem_cons.mp ha with rfl | ha'
        · exact absurd hpa hm
        · exact List.any_eq_true.mpr ⟨a, ha', hpa⟩
      rw [List.find?_cons_of_neg _ hm]
      exact ih hx'

theorem find_append_new (st : List RatingRow) (s u : Nat) (rat : Int)
    (com now : String) (hall : ∀ r ∈ st, ratingKeyMatches s u r = false) :
    (st ++ [(⟨s, u, rat, com, now⟩ : RatingRow)]).find?
      (ratingKeyMatches s u) = some ⟨s, u, rat, com, now⟩ := by
  induction st with
  | nil =>
    have hnew : ratingKeyMatches s u (⟨s, u, rat, com, now⟩ : RatingRow) = true := by
      unfold ratingKeyMatches
      simp
    rw [List.nil_append, List.find?_cons_of_pos _ hnew]
  | cons r rs ih =>
    have hr : ratingKeyMatches s u r = false := hall r (List.mem_cons_self r rs)
    rw [List.cons_append, List.find?_cons_of_neg _ (by rw [hr]; exact Bool.false_ne_true)]
    exact ih (fun a ha => hall a (List.mem_cons_of_mem r ha))

theorem upsert_find_same (st : List RatingRow) (s u : Nat) (rat : Int)
    (com now : String) :
    findRow (upsert_rating st s u rat com now) s u = some ⟨s, u, rat, com, now⟩ := by
  unfold upsert_rating findRow
  by_cases hx : st.any (ratingKeyMatches s u)
  · rw [if_pos hx]
    exact find_map_update st s u rat com now hx
  · rw [if_neg hx]
    refine find_append_new st s u rat com now ?_
    intro r hr
    by_contra hc
    exact hx (List.any_eq_true.mpr ⟨r, hr, by simpa using hc⟩)

theorem find_map_update_other (st : List RatingRow) (s u : Nat) (rat : Int)
    (com now : String) (p q : Nat) (hne : (p, q) ≠ (s, u)) :
    (st.map (fun r => if ratingKeyMatches s u r then
        (⟨s, u, rat, com, now⟩ : RatingRow) else r)).find?
      (ratingKeyMatches p q) = st.find? (ratingKeyMatches p q) := by
  have hnew : ratingKeyMatches p q (⟨s, u, rat, com, now⟩ : RatingRow) = false := by
    rw [Bool.eq_false_iff]
    intro hc
    rcases (ratingKeyMatches_iff p q _).mp hc with ⟨h1, h2⟩
    exact hne (by rw [← h1, ← h2])
  induction st with
  | nil => rfl
  | cons r rs ih =>
    rw [List.map_cons]
    by_cases hm : ratingKeyMatches s u r
    · rw [if_pos hm]
      have hr : ratingKeyMatches p q r = false := by
        rcases (ratingKeyMatches_iff s u r).mp hm with ⟨h1, h2⟩
        rw [Bool.eq_false_iff]
        intro hc
        rcases (ratingKeyMatches_iff p q r).mp hc with ⟨h3, h4⟩
        exact hne (by rw [← h3, ← h4, h1, h2])
      rw [List.find?_cons_of_neg _ (by rw [hnew]; exact Bool.false_ne_true),
        List.find?_cons_of_neg _ (by rw [hr]; exact Bool.false_ne_true)]
      exact ih
    · rw [if_neg hm]
      by_cases hp : ratingKeyMatches p q r
      · rw [List.find?_cons_of_pos _ hp, List.find?_cons_of_pos _ hp]
      · rw [List.find?_cons_of_neg _ hp, List.find?_cons_of_neg _ hp]
        exact ih

theorem find_append_other (st : List RatingRow) (row : RatingRow) (p q : Nat)
    (hrow : ratingKeyMatches p q row = false) :
    (st ++ [row]).find? (ratingKeyMatches p q) = st.find? (ratingKeyMatches p q) := by
  induction st with
  | nil =>
    rw [List.nil_append,
      List.find?_cons_of_neg _ (by rw [hrow]; exact Bool.false_ne_true)]
  | cons r rs ih =>
    rw [List.cons_append]
    by_cases hp : ratingKeyMatches p q r
    · rw [List.find?_cons_of_pos _ hp, List.find?_cons_of_pos _ hp]
    · rw [List.find?_cons_of_neg _ hp, List.find?_cons_of_neg _ hp]
      exact ih

theorem upsert_find_other (st : List RatingRow) (s u : Nat) (rat : Int)
    (com now : String) (p q : Nat) (hne : (p, q) ≠ (s, u)) :
    findRow (upsert_rating st s u rat com now) p q = findRow st p q := by
  unfold upsert_rating findRow
  by_cases hx : st.any (ratingKeyMatches s u)
  · rw [if_pos hx]
    exact find_map_update_other st s u rat com now p q hne
  · rw [if_neg hx]
    refine find_append_other st _ p q ?_
    rw [Bool.eq_false_iff]
    intro hc
    rcases (ratingKeyMatches_iff p q _).mp hc with ⟨h1, h2⟩
    exact hne (by rw [← h1, ← h2])

theorem runRatingCalls_other (calls : List RatingCall) :
    ∀ (st : List RatingRow) (p q : Nat),
      (∀ c ∈ calls, (c.startup_id, c.user_id) ≠ (p, q)) →
      findRow (runRatingCalls st calls) p q = findRow st p q := by
  induction calls with
  | nil => intro st p q _; rfl
  | cons c cs ih =>
    intro st p q hnone
    unfold runRatingCalls
    rw [List.foldl_cons]
    have h1 := ih (applyRatingCall st c) p q
      (fun c' hc' => hnone c' (List.mem_cons_of_mem c hc'))
    unfold runRatingCalls at h1
    rw [h1]
    unfold applyRatingCall
    exact upsert_find_other st _ _ _ _ _ p q
      (fun hk => hnone c (List.mem_cons_self c cs) (by
        rcases Prod.mk.injEq _ _ _ _ ▸ hk with ⟨h1, h2⟩
        rw [h1, h2]))

/-- C10: starting from any store satisfying the
`UNIQUE(startup_id, user_id)` constraint, any sequence of `upsert_rating`
calls keeps at most one rating row per pair, and the row stored for a
pair carries exactly the rating, comment and timestamp of the latest call
for that pair (no history). -/
theorem upsert_rating_last_write_wins (calls : List RatingCall) :
    ∀ st : List RatingRow, uniqueKeys st →
      uniqueKeys (runRatingCalls st calls) ∧
      ∀ (s u : Nat) (c : RatingCall), lastCallFor s u calls = some c →
        findRow (runRatingCalls st calls) s u =
          some ⟨s, u, c.rating, c.comment, c.now⟩ := by
  induction calls with
  | nil =>
    intro st h
    refine ⟨h, ?_⟩
    intro s u c hc
    exact absurd hc (by simp [lastCallFor])
  | cons c0 rest ih =>
    intro st h
    have hstep : runRatingCalls st (c0 :: rest) =
        runRatingCalls (applyRatingCall st c0) rest := by
      unfold runRatingCalls
      rw [List.foldl_cons]
    have h1 : uniqueKeys (applyRatingCall st c0) := uniqueKeys_upsert _ _ _ _ _ _ h
    obtain ⟨ha, hb⟩ := ih (applyRatingCall st c0) h1
    rw [hstep]
    refine ⟨ha, ?_⟩
    intro s u c hc
    unfold lastCallFor at hc
    rw [List.filter_cons] at hc
    by_cases hk : (c0.startup_id == s && c0.user_id == u) = true
    · rw [if_pos hk] at hc
      have hks : c0.startup_id = s ∧ c0.user_id = u := by simpa using hk
      rcases hfr : rest.filter
          (fun c => c.startup_id == s && c.user_id == u) with _ | ⟨d, ds⟩
      · rw [hfr] at hc
        have hc0 : c0 = c := by simpa using hc
        have hnone : ∀ c' ∈ rest, (c'.startup_id, c'.user_id) ≠ (s, u) := by
          intro c' hc' hk'
          have hmemf : c' ∈ rest.filter
              (fun c => c.startup_id == s && c.user_id == u) := by
            rw [List.mem_filter]
            refine ⟨hc', ?_⟩
            rcases Prod.mk.injEq _ _ _ _ ▸ hk' with ⟨h1, h2⟩
            simp [h1, h2]
          rw [hfr] at hmemf
          exact absurd hmemf (List.not_mem_nil c')
        rw [runRatingCalls_other rest _ s u hnone]
        unfold applyRatingCall
        rw [← hc0, ← hks.1, ← hks.2]
        exact upsert_find_same st _ _ _ _ _
      · rw [hfr] at hc
        refine hb s u c ?_
        unfold lastCallFor
        rw [hfr]
        rw [List.getLast?_cons_cons] at hc
        exact hc
    · rw [if_neg hk] at hc
      exact hb s u c hc

/-- Witness for C10: rating the same startup twice as the same user from
an empty store leaves exactly the latest values. -/
theorem upsert_rating_last_write_wins_witness :
    findRow (runRatingCalls []
      [RatingCall.mk 1 2 4 "ok" "t1", RatingCall.mk 1 2 5 "better" "t2"]) 1 2 =
      some (RatingRow.mk 1 2 5 "better" "t2") :=
  (upsert_rating_last_write_wins
    [RatingCall.mk 1 2 4 "ok" "t1", RatingCall.mk 1 2 5 "better" "t2"]
    [] List.Pairwise.nil).2 1 2 (RatingCall.mk 1 2 5 "better" "t2") (by decide)
